import Mathlib

/-!
# Verification of the FastAPI endpoint detector's indexing engine

A shallow embedding, in Lean 4, of the endpoint-indexing engine of the
`vscode_fast_api_endpoint_detector` repository:

* `src/src/indexer.ts` — the line-oriented pattern recognizer
  (`parseEndpointLine`, `extractStringLiteral`, `extractMethodFromApiRoute`,
  `findFunctionName`, `indexFile`, `reindexFile`, the per-file step of
  `indexWorkspace`);
* `src/src/database.ts` — the workspace-scoped index store
  (`EndpointDatabase`: `initDatabase`, `saveDatabase`, `isFileIndexed`,
  `addOrUpdateFile`, `clearEndpointsForFile`, `addEndpoint`,
  `getAllEndpoints`, `getEndpointsByFile`, `searchEndpoints`,
  `sortEndpointsByMethod`, `close`).

Modelling conventions:

* JavaScript strings are modelled as `String` / `List Char`; the index-based
  primitives (`indexOf`, `substring`, `trim`, `startsWith`, `includes`,
  `toLowerCase`) are given structural `List Char` implementations below.
* `String.prototype.localeCompare` is modelled as lexicographic comparison of
  code points (`charsCmp`), adequate for the ASCII method names and paths the
  program manipulates.
* `Array.prototype.sort(cmp)` (stable in ECMAScript 2019+, and the comparators
  used by the program are consistent) is modelled as Mathlib's stable
  `List.insertionSort` over the relation `cmp a b ≠ .gt`.
* The file system is modelled as a partial map from paths to a `LiveFile`
  (content lines, content hash, mtime); `none` models any read/stat failure.
* The two regular expressions of `indexer.ts` are modelled by deterministic
  scanners; for both patterns greedy matching without backtracking is exact
  because each greedy sub-pattern is followed by a character it can never
  consume.
-/

/-! ## Character and string primitives (models of the JS string operations) -/

/-- The single-quote character, written via its code point. -/
def squoteC : Char := Char.ofNat 39

/-- The double-quote character, written via its code point. -/
def dquoteC : Char := Char.ofNat 34

/-- Model of JS whitespace (for `trim` and the regex class `\s`). -/
def isSpaceC (c : Char) : Bool :=
  c = ' ' || c = Char.ofNat 9 || c = Char.ofNat 10 || c = Char.ofNat 13

/-- Model of the regex class `\w`: ASCII letters, digits, underscore. -/
def isWordC (c : Char) : Bool :=
  (97 ≤ c.toNat && c.toNat ≤ 122) || (65 ≤ c.toNat && c.toNat ≤ 90) ||
  (48 ≤ c.toNat && c.toNat ≤ 57) || c = '_'

/-- ASCII lowercasing of one character (model of `toLowerCase`). -/
def lowChar (c : Char) : Char :=
  if 65 ≤ c.toNat && c.toNat ≤ 90 then Char.ofNat (c.toNat + 32) else c

/-- Lowercase a character list. -/
def lowerChars (l : List Char) : List Char := l.map lowChar

/-- Model of `String.prototype.toLowerCase`. -/
def lowerStr (s : String) : String := String.mk (lowerChars s.data)

/-- Model of `String.prototype.trim`: drop whitespace at both ends. -/
def jsTrim (l : List Char) : List Char :=
  ((l.dropWhile isSpaceC).reverse.dropWhile isSpaceC).reverse

/-- Prefix test on character lists (model of `startsWith`). -/
def startsWithL : List Char → List Char → Bool
  | [], _ => true
  | _ :: _, [] => false
  | a :: as, b :: bs => a = b && startsWithL as bs

/-- First index where `p` holds (model of `indexOf` via a predicate). -/
def findIdxC (p : Char → Bool) : List Char → Option Nat
  | [] => none
  | c :: rest => if p c then some 0 else (findIdxC p rest).map (· + 1)

/-- Model of `indexOf(ch, from)`: first index `≥ start` holding `ch`. -/
def idxOfFrom (ch : Char) (start : Nat) (l : List Char) : Option Nat :=
  (findIdxC (fun c => c = ch) (l.drop start)).map (· + start)

/-- Substring containment (model of `String.prototype.includes`). -/
def inclChars (nee : List Char) : List Char → Bool
  | [] => startsWithL nee []
  | c :: cs => startsWithL nee (c :: cs) || inclChars nee cs

/-- Model of `includes` at the `String` level. -/
def strIncludes (hay nee : String) : Bool := inclChars nee.data hay.data

/-! ## Comparators

`natCmp` models the sign of a JS numeric comparator `a - b`; `charsCmp`
models `localeCompare` as code-point lexicographic comparison. -/

/-- Three-way comparison on `Nat`, the sign of the JS comparator `a - b`. -/
def natCmp (m n : Nat) : Ordering :=
  if m < n then .lt else if n < m then .gt else .eq

/-- Lexicographic code-point comparison (model of `localeCompare`). -/
def charsCmp : List Char → List Char → Ordering
  | [], [] => .eq
  | [], _ :: _ => .lt
  | _ :: _, [] => .gt
  | a :: as, b :: bs =>
    match natCmp a.toNat b.toNat with
    | .eq => charsCmp as bs
    | o => o

/-- `localeCompare` at the `String` level. -/
def strCmp (s t : String) : Ordering := charsCmp s.data t.data

/-- Lexicographic composition of two comparators on the same type. -/
def lexCmp (c1 c2 : α → α → Ordering) (a b : α) : Ordering :=
  match c1 a b with
  | .eq => c2 a b
  | o => o

/-- The laws that make a comparator a total preorder comparison: antisymmetry
of the three-way result, transitivity of `lt`, and left-congruence of `eq`. -/
structure LawCmp (cmp : α → α → Ordering) : Prop where
  swap : ∀ a b, cmp b a = (cmp a b).swap
  lt_trans : ∀ a b c, cmp a b = .lt → cmp b c = .lt → cmp a c = .lt
  eq_left : ∀ a b c, cmp a b = .eq → cmp a c = cmp b c

theorem LawCmp.eq_right {cmp : α → α → Ordering} (h : LawCmp cmp)
    {b c : α} (a : α) (hbc : cmp b c = .eq) : cmp a b = cmp a c := by
  have h2 : cmp b a = cmp c a := h.eq_left b c a hbc
  have h3 : (cmp a b).swap = (cmp a c).swap := by
    rw [← h.swap a b, ← h.swap a c, h2]
  exact Ordering.swap_inj.mp h3

theorem natCmp_lt {a b : Nat} (h : a < b) : natCmp a b = .lt := by
  simp [natCmp, h]

theorem natCmp_gt {a b : Nat} (h : b < a) : natCmp a b = .gt := by
  have h2 : ¬ a < b := Nat.lt_asymm h
  simp [natCmp, h, h2]

theorem natCmp_eqq {a b : Nat} (h : a = b) : natCmp a b = .eq := by
  subst h; simp [natCmp, Nat.lt_irrefl]

theorem lt_of_natCmp {a b : Nat} (h : natCmp a b = .lt) : a < b := by
  by_cases h1 : a < b
  · exact h1
  · exfalso
    by_cases h2 : b < a
    · rw [natCmp_gt h2] at h; simp at h
    · rw [natCmp_eqq (by omega : a = b)] at h; simp at h

theorem eq_of_natCmp {a b : Nat} (h : natCmp a b = .eq) : a = b := by
  by_cases h1 : a < b
  · rw [natCmp_lt h1] at h; simp at h
  · by_cases h2 : b < a
    · rw [natCmp_gt h2] at h; simp at h
    · omega

theorem lawCmp_natCmp : LawCmp natCmp := by
  refine ⟨?_, ?_, ?_⟩
  · intro a b
    rcases Nat.lt_trichotomy a b with h | h | h
    · rw [natCmp_lt h, natCmp_gt h]; rfl
    · rw [natCmp_eqq h, natCmp_eqq h.symm]; rfl
    · rw [natCmp_gt h, natCmp_lt h]; rfl
  · intro a b c hab hbc
    exact natCmp_lt (Nat.lt_trans (lt_of_natCmp hab) (lt_of_natCmp hbc))
  · intro a b c hab
    rw [eq_of_natCmp hab]

theorem charEq_of_natCmp {x y : Char} (h : natCmp x.toNat y.toNat = .eq) :
    x = y :=
  Char.eq_of_val_eq (UInt32.toNat.inj (eq_of_natCmp h))

theorem charsCmp_eq_iff : ∀ a b : List Char, charsCmp a b = .eq ↔ a = b := by
  intro a
  induction a with
  | nil => intro b; cases b <;> simp [charsCmp]
  | cons x xs ih =>
    intro b
    cases b with
    | nil => simp [charsCmp]
    | cons y ys =>
      simp only [charsCmp]
      rcases h : natCmp x.toNat y.toNat with hh | hh | hh
      · constructor
        · intro hc; simp at hc
        · intro hc
          have hx : x = y := by injection hc
          rw [natCmp_eqq (by rw [hx])] at h
          simp at h
      · have hx : x = y := charEq_of_natCmp h
        subst hx
        rw [ih ys]
        constructor
        · intro h2; rw [h2]
        · intro h2; injection h2
      · constructor
        · intro hc; simp at hc
        · intro hc
          have hx : x = y := by injection hc
          rw [natCmp_eqq (by rw [hx])] at h
          simp at h

theorem lawCmp_charsCmp : LawCmp charsCmp := by
  refine ⟨?_, ?_, ?_⟩
  · intro a
    induction a with
    | nil => intro b; cases b <;> simp [charsCmp, Ordering.swap]
    | cons x xs ih =>
      intro b
      cases b with
      | nil => simp [charsCmp, Ordering.swap]
      | cons y ys =>
        simp only [charsCmp]
        rw [lawCmp_natCmp.swap x.toNat y.toNat]
        rcases natCmp x.toNat y.toNat with _ | _ | _
        · rfl
        · simpa [Ordering.swap] using ih ys
        · rfl
  · intro a
    induction a with
    | nil =>
      intro b c hab hbc
      cases b <;> cases c <;> simp_all [charsCmp]
    | cons x xs ih =>
      intro b c hab hbc
      cases b with
      | nil => simp [charsCmp] at hab
      | cons y ys =>
        cases c with
        | nil => simp [charsCmp] at hbc
        | cons z zs =>
          simp only [charsCmp] at *
          rcases h1 : natCmp x.toNat y.toNat with hh | hh | hh <;> rw [h1] at hab
          · rcases h2 : natCmp y.toNat z.toNat with gg | gg | gg <;> rw [h2] at hbc
            · rw [lawCmp_natCmp.lt_trans _ _ _ h1 h2]
            · rw [lawCmp_natCmp.eq_right x.toNat h2] at h1
              rw [h1]
            · simp at hbc
          · rcases h2 : natCmp y.toNat z.toNat with gg | gg | gg <;> rw [h2] at hbc
            · rw [lawCmp_natCmp.eq_left _ _ _ h1, h2]
            · rw [lawCmp_natCmp.eq_left _ _ _ h1, h2]
              exact ih ys zs hab hbc
            · simp at hbc
          · simp at hab
  · intro a b c hab
    have hba : a = b := (charsCmp_eq_iff a b).mp hab
    rw [hba]

theorem lawCmp_lexCmp {c1 c2 : α → α → Ordering}
    (h1 : LawCmp c1) (h2 : LawCmp c2) : LawCmp (lexCmp c1 c2) := by
  refine ⟨?_, ?_, ?_⟩
  · intro a b
    simp only [lexCmp]
    rw [h1.swap a b]
    rcases c1 a b with _ | _ | _
    · rfl
    · exact h2.swap a b
    · rfl
  · intro a b c hab hbc
    simp only [lexCmp] at *
    rcases g1 : c1 a b with hh | hh | hh <;> rw [g1] at hab
    · rcases g2 : c1 b c with gg | gg | gg <;> rw [g2] at hbc
      · rw [h1.lt_trans _ _ _ g1 g2]
      · rw [h1.eq_right a g2] at g1
        rw [g1]
      · simp at hbc
    · rcases g2 : c1 b c with gg | gg | gg <;> rw [g2] at hbc
      · rw [h1.eq_left _ _ _ g1, g2]
      · rw [h1.eq_left _ _ _ g1, g2]
        exact h2.lt_trans _ _ _ hab hbc
      · simp at hbc
    · simp at hab
  · intro a b c hab
    simp only [lexCmp] at *
    rcases g1 : c1 a b with hh | hh | hh <;> rw [g1] at hab
    · simp at hab
    · rw [h1.eq_left _ _ _ g1]
      rcases g2 : c1 b c with gg | gg | gg
      · rfl
      · exact h2.eq_left _ _ _ hab
      · rfl
    · simp at hab

/-- From a lawful comparator, the relation `cmp a b ≠ .gt` is total. -/
theorem lawCmp_total {cmp : α → α → Ordering} (h : LawCmp cmp) (a b : α) :
    cmp a b ≠ .gt ∨ cmp b a ≠ .gt := by
  by_cases hg : cmp a b = .gt
  · right
    rw [h.swap a b, hg]
    simp [Ordering.swap]
  · left; exact hg

/-- From a lawful comparator, the relation `cmp a b ≠ .gt` is transitive. -/
theorem lawCmp_trans {cmp : α → α → Ordering} (h : LawCmp cmp) (a b c : α)
    (hab : cmp a b ≠ .gt) (hbc : cmp b c ≠ .gt) : cmp a c ≠ .gt := by
  rcases g1 : cmp a b with hh | hh | hh
  · rcases g2 : cmp b c with gg | gg | gg
    · rw [h.lt_trans _ _ _ g1 g2]; simp
    · rw [h.eq_right a g2] at g1
      rw [g1]; simp
    · rw [g2] at hbc; simp at hbc
  · rw [h.eq_left _ _ _ g1]
    exact hbc
  · rw [g1] at hab; simp at hab

example : charsCmp "abc".data "abd".data = .lt := by decide
example : jsTrim "  @router.get  ".data = "@router.get".data := by decide
example : strIncludes "/USERS" "user" = false := by decide
example : strIncludes (lowerStr "/USERS") "user" = true := by decide

/-! ## The pattern recognizer (`src/src/indexer.ts`)

`decomposeDecorator` is the prefix of `parseEndpointLine` that splits a
decorator line into router name, call name and argument text; the remainder
of `parseEndpointLine` is translated directly below it. -/

/-- One recognized endpoint, before the store stamps file-level fields
(the fields a `parseEndpointLine` call determines). -/
structure ParsedEndpoint where
  method : String
  path : String
  functionName : String
  routerName : String
  lineNumber : Nat
deriving Repr, DecidableEq

/-- `indexer.ts` line 182: the call names accepted by the recognizer. -/
def validMethods : List String :=
  ["get", "post", "put", "delete", "patch", "head", "options", "api_route"]

/-- `indexer.ts` line 205: the verbs accepted after `api_route` resolution. -/
def httpMethods : List String :=
  ["get", "post", "put", "delete", "patch", "head", "options"]

/-- The structural prefix of `parseEndpointLine` (`indexer.ts` 153-179):
trim, require `@`, split at the first `.` and the first following `(`. -/
def decomposeDecorator (line : String) : Option (String × String × String) :=
  let t := jsTrim line.data
  if startsWithL "@".data t then
    let withoutAt := t.drop 1
    match findIdxC (fun c => c = '.') withoutAt with
    | some dotIndex =>
      let routerName := jsTrim (withoutAt.take dotIndex)
      let rest := withoutAt.drop (dotIndex + 1)
      match findIdxC (fun c => c = '(') rest with
      | some parenIndex =>
        some (String.mk routerName, String.mk (jsTrim (rest.take parenIndex)),
          String.mk (rest.drop (parenIndex + 1)))
      | none => none
    | none => none
  else none

/-- The quote-selection prefix of `extractStringLiteral`
(`indexer.ts` 227-251): index and kind of the winning first quote. -/
def chosenQuote (argsSection : List Char) : Option (Nat × Char) :=
  match findIdxC (fun c => c = squoteC) argsSection,
      findIdxC (fun c => c = dquoteC) argsSection with
  | some si, some di =>
    if si < di then some (si, squoteC) else some (di, dquoteC)
  | some si, none => some (si, squoteC)
  | none, some di => some (di, dquoteC)
  | none, none => none

/-- The closing-quote suffix of `extractStringLiteral`
(`indexer.ts` 253-260): `pathStart = quoteIndex + 1`, scan for the same
quote from there, and cut the substring between. -/
def literalFrom (quoteChar : Char) (quoteIndex : Nat)
    (argsSection : List Char) : Option (List Char) :=
  match idxOfFrom quoteChar (quoteIndex + 1) argsSection with
  | none => none
  | some pathEnd => some ((argsSection.take pathEnd).drop (quoteIndex + 1))

/-- `extractStringLiteral` (`indexer.ts` 225-261): first quote of either kind
(earlier one wins), then the next occurrence of that same quote. -/
def extractStringLiteral (argsSection : List Char) : Option (List Char) :=
  match chosenQuote argsSection with
  | none => none
  | some (quoteIndex, quoteChar) =>
    literalFrom quoteChar quoteIndex argsSection

/-- Following the specification text for step 5 of the recognizer: scan for
the first occurrence of either quote character, then the next occurrence of
that same quote character; the substring between is the path; no quote, or an
unterminated literal, yields no match. Stated as a direct recursive scan, to
be compared with the source's `extractStringLiteral`. -/
def specStringLiteral : List Char → Option (List Char)
  | [] => none
  | c :: rest =>
    if c = squoteC || c = dquoteC then
      match findIdxC (fun d => d = c) rest with
      | none => none
      | some j => some (rest.take j)
    else specStringLiteral rest

/-- Case-insensitive literal matcher (for the `/i` regex flag). -/
def dropLitCI : List Char → List Char → Option (List Char)
  | [], l => some l
  | _ :: _, [] => none
  | c :: cs, x :: xs => if lowChar x = lowChar c then dropLitCI cs xs else none

/-- Case-sensitive literal matcher. -/
def dropLitCS : List Char → List Char → Option (List Char)
  | [], l => some l
  | _ :: _, [] => none
  | c :: cs, x :: xs => if x = c then dropLitCS cs xs else none

/-- Is this character one of the two quote characters (regex class)? -/
def isQuoteC (c : Char) : Bool := c = squoteC || c = dquoteC

/-- Match the regex of `extractMethodFromApiRoute` (`indexer.ts` 266), i.e.
`methods\s*=\s*[\s*["](\w+)["]` with either quote character in each class,
anchored at the head of `l`; returns the capture group. The second pattern of
the source (line 267) only adds a suffix check after a match of the first, so
any match of it is already a match of the first and it never fires. -/
def matchMethodsAt (l : List Char) : Option (List Char) :=
  match dropLitCI "methods".data l with
  | none => none
  | some l1 =>
    match l1.dropWhile isSpaceC with
    | c :: l3 =>
      if c = '=' then
        match l3.dropWhile isSpaceC with
        | c2 :: l5 =>
          if c2 = '[' then
            match l5.dropWhile isSpaceC with
            | q :: l7 =>
              if isQuoteC q then
                let w := l7.takeWhile isWordC
                match l7.dropWhile isWordC with
                | q2 :: _ =>
                  if isQuoteC q2 && !w.isEmpty then some w else none
                | [] => none
              else none
            | [] => none
          else none
        | [] => none
      else none
    | [] => none

/-- Leftmost match of the `methods=[...]` pattern (regex search). -/
def searchMethods : List Char → Option (List Char)
  | [] => none
  | c :: rest =>
    match matchMethodsAt (c :: rest) with
    | some w => some w
    | none => searchMethods rest

/-- `extractMethodFromApiRoute` (`indexer.ts` 263-278): first listed verb of a
`methods=[...]` sub-expression, lowercased; `none` when absent. -/
def extractMethodFromApiRoute (argsSection : List Char) : Option String :=
  match searchMethods argsSection with
  | some w => some (String.mk (lowerChars w))
  | none => none

/-- Match `def\s+(\w+)` anchored at the head of `l`. -/
def matchDefAfter (l : List Char) : Option (List Char) :=
  match dropLitCS "def".data l with
  | none => none
  | some l1 =>
    if (l1.takeWhile isSpaceC).isEmpty then none
    else
      let w := (l1.dropWhile isSpaceC).takeWhile isWordC
      if w.isEmpty then none else some w

/-- Match `(?:async\s+)?def\s+(\w+)` anchored at the head of `l`: try the
optional `async` qualifier first, fall back to a bare `def`. -/
def matchDefAt (l : List Char) : Option (List Char) :=
  match dropLitCS "async".data l with
  | some l1 =>
    if (l1.takeWhile isSpaceC).isEmpty then matchDefAfter l
    else
      match matchDefAfter (l1.dropWhile isSpaceC) with
      | some w => some w
      | none => matchDefAfter l
  | none => matchDefAfter l

/-- Leftmost match of `(?:async\s+)?def\s+(\w+)` (regex search within the
already-trimmed line, `indexer.ts` 286). -/
def searchDef : List Char → Option (List Char)
  | [] => none
  | c :: rest =>
    match matchDefAt (c :: rest) with
    | some w => some w
    | none => searchDef rest

/-- The guard of `findFunctionName` (`indexer.ts` 285): the trimmed line
starts with a function-definition keyword. -/
def isDefLine (s : String) : Bool :=
  let t := jsTrim s.data
  startsWithL "def ".data t || startsWithL "async def ".data t

/-- The lookahead loop body of `findFunctionName` (`indexer.ts` 282-291):
first line passing the `def` guard whose regex search yields an identifier. -/
def scanDefWindow : List String → String
  | [] => "unknown"
  | l :: ls =>
    if isDefLine l then
      match searchDef (jsTrim l.data) with
      | some w => String.mk w
      | none => scanDefWindow ls
    else scanDefWindow ls

/-- `findFunctionName` (`indexer.ts` 280-294). The JS loop runs `i` from
`startLineNumber` (the decorator's 1-based line, i.e. the 0-based index of
the next line) to `min (startLineNumber + 10) lines.length`, which is exactly
the window `(lines.drop startLineNumber).take 10`. -/
def findFunctionName (lines : List String) (startLineNumber : Nat) : String :=
  scanDefWindow ((lines.drop startLineNumber).take 10)

/-- The `api_route` special case (`indexer.ts` 193-202): the generic
multi-verb call name takes the first listed verb of a `methods=[...]`
sub-expression, defaulting to `get` when none is found; any other call name
keeps its own (lowercased) name. -/
def resolveMethod (m0 : String) (argsSection : List Char) : String :=
  if m0 = "api_route" then (extractMethodFromApiRoute argsSection).getD "get"
  else m0

/-- The suffix of `parseEndpointLine` after the structural split
(`indexer.ts` 181-223): verb-name filter, string-literal path, `api_route`
resolution, verb check, record assembly. -/
def parseFromParts (lines : List String) (lineNumber : Nat)
    (routerName methodName argsSection : String) : Option ParsedEndpoint :=
  if validMethods.contains (lowerStr methodName) then
    match extractStringLiteral argsSection.data with
    | some pathChars =>
      if httpMethods.contains (resolveMethod (lowerStr methodName) argsSection.data) then
        some { method := resolveMethod (lowerStr methodName) argsSection.data,
               path := String.mk pathChars,
               functionName := findFunctionName lines lineNumber,
               routerName := routerName, lineNumber := lineNumber }
      else none
    | none => none
  else none

/-- `parseEndpointLine` (`indexer.ts` 146-223). -/
def parseEndpointLine (line : String) (lines : List String)
    (lineNumber : Nat) : Option ParsedEndpoint :=
  match decomposeDecorator line with
  | none => none
  | some (routerName, methodName, argsSection) =>
    parseFromParts lines lineNumber routerName methodName argsSection

/-- The per-line loop of `indexFile` (`indexer.ts` 121-137): 1-based line
numbers, an `@`-prefix pre-filter, then `parseEndpointLine`. -/
def indexLinesFrom (allLines : List String) : Nat → List String → List ParsedEndpoint
  | _, [] => []
  | i, line :: rest =>
    let parsed :=
      if startsWithL "@".data (jsTrim line.data) then
        parseEndpointLine line allLines (i + 1)
      else none
    match parsed with
    | some pe => pe :: indexLinesFrom allLines (i + 1) rest
    | none => indexLinesFrom allLines (i + 1) rest

/-- All endpoints recognized in a file's lines (`indexFile`, pure part). -/
def indexFileLines (lines : List String) : List ParsedEndpoint :=
  indexLinesFrom lines 0 lines

example :
    parseEndpointLine "@router.get(\"/x\")" ["@router.get(\"/x\")", "async def handler():"] 1 =
      some { method := "get", path := "/x", functionName := "handler",
             routerName := "router", lineNumber := 1 } := by decide
example : parseEndpointLine "@something.unknownmethod(\"/x\")" [] 1 = none := by decide
example :
    (parseEndpointLine "@app.api_route(\"/x\", methods=[\"POST\"])" [] 1).map
      ParsedEndpoint.method = some "post" := by decide
example : parseEndpointLine "@app.get(123)" [] 1 = none := by decide

/-! ## The index store (`src/src/database.ts`) -/

/-- `EndpointRecord` (`database.ts` 5-16). `workspaceId` is `Option` because
records loaded from an old blob may lack it (`!e.workspaceId`). -/
structure EndpointRecord where
  id : Option Nat
  method : String
  path : String
  functionName : String
  filePath : String
  lineNumber : Nat
  routerName : String
  fileHash : String
  workspaceId : Option String
  createdAt : Nat
deriving Repr, DecidableEq

/-- `FileRecord` (`database.ts` 18-26). -/
structure FileRecord where
  id : Option Nat
  filePath : String
  fileHash : String
  lastModified : Nat
  isIndexed : Bool
  workspaceId : Option String
  createdAt : Nat
deriving Repr, DecidableEq

/-- `DatabaseData` (`database.ts` 28-32): the whole in-memory store. -/
structure DatabaseData where
  endpoints : List EndpointRecord
  files : List FileRecord
  nextId : Nat
deriving Repr, DecidableEq

/-- JS truthiness of an optional string field: `undefined` and the empty
string are falsy. -/
def jsTruthy : Option String → Bool
  | none => false
  | some s => !(s = "")

/-- The workspace filter `e.workspaceId === ws || !e.workspaceId` used by
every query (`database.ts` 102, 172, 187, 197, 242). -/
def inScope (ws : String) (w : Option String) : Bool :=
  w = some ws || !jsTruthy w

/-- The constructor's scope normalization (`database.ts` 40):
`workspaceId || 'default'`. -/
def mkWorkspaceId : Option String → String
  | none => "default"
  | some s => if s = "" then "default" else s

/-- The store's empty state (`database.ts` 42-46). -/
def emptyData : DatabaseData := { endpoints := [], files := [], nextId := 1 }

/-- What loading the durable blob can observe: the file is absent, its content
fails `JSON.parse`, or it parses into a value whose three fields may each be
missing or falsy. -/
inductive BlobLoad where
  | missing
  | corrupt (raw : String)
  | parsed (endpoints : Option (List EndpointRecord))
      (files : Option (List FileRecord)) (nextId : Option Nat)

/-- `initDatabase` (`database.ts` 50-79): a missing blob keeps the
constructor's empty state, a corrupt one is discarded by the catch-all
(reset to empty, no exception escapes — the model is a total function), and a
parsed one has its absent or falsy fields replaced (`database.ts` 64-66). -/
def initDatabase : BlobLoad → DatabaseData
  | .missing => emptyData
  | .corrupt _ => emptyData
  | .parsed eps fls nid =>
    { endpoints := eps.getD [],
      files := fls.getD [],
      nextId := match nid with
        | none => 1
        | some n => if n = 0 then 1 else n }

/-- A readable file as the store sees it: content lines (`readFile` +
`split('\n')`), content hash (`getFileHash`) and mtime (`stat().mtimeMs`).
A path mapped to `none` models any read/stat/hash failure. -/
structure LiveFile where
  lines : List String
  hash : String
  mtimeMs : Nat
deriving Repr, DecidableEq

/-- The file system, as a partial map from paths. -/
def FileSys : Type := String → Option LiveFile

/-- The `find` of `isFileIndexed` (`database.ts` 101-103). -/
def findFileRecord (ws : String) (p : String) (d : DatabaseData) :
    Option FileRecord :=
  d.files.find? fun f => f.filePath = p && inScope ws f.workspaceId

/-- `isFileIndexed` (`database.ts` 100-120): false when no scoped FileRecord
exists, the file is unreadable, or hash/mtime differ from the record. -/
def isFileIndexed (ws : String) (fs : FileSys) (d : DatabaseData)
    (p : String) : Bool :=
  match findFileRecord ws p d with
  | none => false
  | some fileRecord =>
    match fs p with
    | none => false
    | some live =>
      !(!(fileRecord.fileHash = live.hash) || !(fileRecord.lastModified = live.mtimeMs))

/-- The update branch of `addOrUpdateFile` (`database.ts` 139-141): replace
the record at index `i` in place, preserving `id` and `createdAt`. -/
def updateFileAt (ws : String) (p : String) (live : LiveFile) (i : Nat)
    (d : DatabaseData) : DatabaseData :=
  match d.files.get? i with
  | some old =>
    let fr : FileRecord :=
      { id := old.id, filePath := p, fileHash := live.hash,
        lastModified := live.mtimeMs, isIndexed := true,
        workspaceId := some ws, createdAt := old.createdAt }
    { d with files := d.files.set i fr }
  | none => d

/-- `addOrUpdateFile` (`database.ts` 122-149), after a successful stat/hash
read: update in place (keeping `id` and `createdAt`) or append with a fresh
id. The lookup uses `findIndex` on `filePath` alone — no workspace filter. -/
def addOrUpdateFile (ws : String) (now : Nat) (p : String) (live : LiveFile)
    (d : DatabaseData) : DatabaseData :=
  match d.files.findIdx? (fun f => f.filePath = p) with
  | some i => updateFileAt ws p live i d
  | none =>
    { d with
      files := d.files ++
        [{ id := some d.nextId, filePath := p, fileHash := live.hash,
           lastModified := live.mtimeMs, isIndexed := true,
           workspaceId := some ws, createdAt := now }],
      nextId := d.nextId + 1 }

/-- `clearEndpointsForFile` (`database.ts` 151-156): keep a record iff its
path differs, or it belongs to a different truthy workspace. -/
def clearEndpointsForFile (ws : String) (p : String) (d : DatabaseData) :
    DatabaseData :=
  { d with endpoints := d.endpoints.filter fun e =>
      !(e.filePath = p) || (!(e.workspaceId = some ws) && jsTruthy e.workspaceId) }

/-- The stamped copy of an endpoint record that `addEndpoint` pushes
(`database.ts` 159-164): fresh id, current workspace, creation time. -/
def stampRecord (ws : String) (now : Nat) (d : DatabaseData)
    (e : EndpointRecord) : EndpointRecord :=
  { e with id := some d.nextId, workspaceId := some ws, createdAt := now }

/-- `addEndpoint` (`database.ts` 158-168): stamp id, workspace and creation
time, append, bump the counter. -/
def addEndpoint (ws : String) (now : Nat) (d : DatabaseData)
    (e : EndpointRecord) : DatabaseData :=
  { d with
    endpoints := d.endpoints ++ [stampRecord ws now d e],
    nextId := d.nextId + 1 }

/-- The comparator of `sortEndpointsByMethod` (`database.ts` 207-238). -/
def methodOrder : List String :=
  ["GET", "POST", "PUT", "PATCH", "DELETE", "OPTIONS", "HEAD"]

/-- `indexOf` on a list of strings (`-1` becomes `none`). -/
def idxInList : List String → String → Option Nat
  | [], _ => none
  | s :: rest, m => if s = m then some 0 else (idxInList rest m).map (· + 1)

/-- `methodOrder.indexOf(m)` (`database.ts` 211-212). -/
def methodIdx (m : String) : Option Nat := idxInList methodOrder m

/-- The body of the `sortEndpointsByMethod` comparator. -/
def cmpEndpointsByMethod (a b : EndpointRecord) : Ordering :=
  match methodIdx a.method, methodIdx b.method with
  | some ai, some bi =>
    if ai = bi then strCmp a.path b.path else natCmp ai bi
  | some _, none => .lt
  | none, some _ => .gt
  | none, none =>
    match strCmp a.method b.method with
    | .eq => strCmp a.path b.path
    | o => o

/-- The comparator of the first sort in `getAllEndpoints`
(`database.ts` 175-180): `filePath` lexically, then `lineNumber`. -/
def cmpByFileLine (a b : EndpointRecord) : Ordering :=
  if a.filePath = b.filePath then natCmp a.lineNumber b.lineNumber
  else strCmp a.filePath b.filePath

/-- The relation a JS comparator sort establishes. -/
def cmpRel (cmp : EndpointRecord → EndpointRecord → Ordering)
    (a b : EndpointRecord) : Prop :=
  cmp a b ≠ .gt

instance (cmp : EndpointRecord → EndpointRecord → Ordering) :
    DecidableRel (cmpRel cmp) := fun a b => by
  unfold cmpRel
  infer_instance

/-- `sortEndpointsByMethod` (`database.ts` 207-238), as a stable sort. -/
def sortEndpointsByMethod (l : List EndpointRecord) : List EndpointRecord :=
  List.insertionSort (cmpRel cmpEndpointsByMethod) l

/-- `getAllEndpoints` (`database.ts` 170-183): filter to the scope, sort by
file/line, then re-sort (stably) by method. -/
def getAllEndpoints (ws : String) (d : DatabaseData) : List EndpointRecord :=
  sortEndpointsByMethod
    (List.insertionSort (cmpRel cmpByFileLine)
      (d.endpoints.filter fun e => inScope ws e.workspaceId))

/-- The comparator of the per-file sort (`database.ts` 188). -/
def cmpByLine (a b : EndpointRecord) : Ordering :=
  natCmp a.lineNumber b.lineNumber

/-- `getEndpointsByFile` (`database.ts` 185-191). -/
def getEndpointsByFile (p : String) (ws : String) (d : DatabaseData) :
    List EndpointRecord :=
  sortEndpointsByMethod
    (List.insertionSort (cmpRel cmpByLine)
      (d.endpoints.filter fun e =>
        e.filePath = p && inScope ws e.workspaceId))

/-- The search predicate of `searchEndpoints` (`database.ts` 196-202). -/
def matchesSearch (term : String) (e : EndpointRecord) : Bool :=
  strIncludes (lowerStr e.method) (lowerStr term) ||
  strIncludes (lowerStr e.path) (lowerStr term) ||
  strIncludes (lowerStr e.functionName) (lowerStr term) ||
  strIncludes (lowerStr e.filePath) (lowerStr term)

/-- `searchEndpoints` (`database.ts` 193-205). -/
def searchEndpoints (term : String) (ws : String) (d : DatabaseData) :
    List EndpointRecord :=
  sortEndpointsByMethod
    (d.endpoints.filter fun e =>
      inScope ws e.workspaceId && matchesSearch term e)

/-! ## The indexer's store-mutating passes (`src/src/indexer.ts`) -/

/-- Build the `EndpointRecord` that `indexFile` pushes (`indexer.ts` 213-222);
`id` and `workspaceId` are stamped later by `addEndpoint`. -/
def toEndpointRecord (pe : ParsedEndpoint) (filePath fileHash : String)
    (now : Nat) : EndpointRecord :=
  { id := none, method := pe.method, path := pe.path,
    functionName := pe.functionName, filePath := filePath,
    lineNumber := pe.lineNumber, routerName := pe.routerName,
    fileHash := fileHash, workspaceId := none, createdAt := now }

/-- `indexFile` (`indexer.ts` 113-144): read the file, recognize its lines;
a read failure is caught and yields no endpoints. -/
def indexFileRecords (fs : FileSys) (p : String) (now : Nat) :
    List EndpointRecord :=
  match fs p with
  | none => []
  | some live =>
    (indexFileLines live.lines).map fun pe => toEndpointRecord pe p live.hash now

/-- `reindexFile` (`indexer.ts` 296-319): clear, re-scan, add, then update the
file record; when the file is unreadable `addOrUpdateFile` throws and the
surrounding catch keeps the state reached so far. -/
def reindexFile (ws : String) (now : Nat) (fs : FileSys) (p : String)
    (d : DatabaseData) : DatabaseData :=
  match fs p with
  | none =>
    (indexFileRecords fs p now).foldl (addEndpoint ws now)
      (clearEndpointsForFile ws p d)
  | some live =>
    addOrUpdateFile ws now p live
      ((indexFileRecords fs p now).foldl (addEndpoint ws now)
        (clearEndpointsForFile ws p d))

/-- The per-file step of `indexWorkspace` (`indexer.ts` 24-59): skip when
`isFileIndexed`; otherwise scan, and only when at least one endpoint was
found clear the old records and add the new ones; finally mark the file. -/
def indexWorkspaceStep (ws : String) (now : Nat) (fs : FileSys) (p : String)
    (d : DatabaseData) : DatabaseData :=
  if isFileIndexed ws fs d p then d
  else
    match fs p with
    | none =>
      if (indexFileRecords fs p now).isEmpty then d
      else (indexFileRecords fs p now).foldl (addEndpoint ws now)
             (clearEndpointsForFile ws p d)
    | some live =>
      addOrUpdateFile ws now p live
        (if (indexFileRecords fs p now).isEmpty then d
         else (indexFileRecords fs p now).foldl (addEndpoint ws now)
                (clearEndpointsForFile ws p d))

/-! ## Persistence (`saveDatabase`, `database.ts` 81-87)

The in-memory data plus the durable blob, with an explicit success flag for
each flush attempt. `fsWriteBlob` models `fs.writeFileSync` as a fallible
operation; `saveDatabase` catches its error and only logs, so the store-level
operations below always return `Except.ok`. -/

/-- The combined state: in-memory data and the on-disk blob. -/
structure FullState where
  mem : DatabaseData
  disk : Option DatabaseData
deriving Repr, DecidableEq

/-- `fs.writeFileSync`: succeeds or raises, leaving the old blob in place. -/
def fsWriteBlob (writeOk : Bool) (d : DatabaseData) :
    Except String (Option DatabaseData) :=
  if writeOk then .ok (some d) else .error "EACCES"

/-- `saveDatabase` (`database.ts` 81-87): the write error is caught inside
and only logged — the function itself never fails. -/
def saveDatabase (writeOk : Bool) (d : DatabaseData)
    (disk : Option DatabaseData) : Option DatabaseData :=
  match fsWriteBlob writeOk d with
  | .ok disk2 => disk2
  | .error _ => disk

/-- `addEndpoint` at the full-state level (`database.ts` 158-168). -/
def addEndpointFull (ws : String) (now : Nat) (e : EndpointRecord)
    (writeOk : Bool) (s : FullState) : Except String FullState :=
  let mem := addEndpoint ws now s.mem e
  .ok { mem := mem, disk := saveDatabase writeOk mem s.disk }

/-- `clearEndpointsForFile` at the full-state level (`database.ts` 151-156). -/
def clearEndpointsForFileFull (ws : String) (p : String) (writeOk : Bool)
    (s : FullState) : Except String FullState :=
  let mem := clearEndpointsForFile ws p s.mem
  .ok { mem := mem, disk := saveDatabase writeOk mem s.disk }

/-- `addOrUpdateFile` at the full-state level (`database.ts` 122-149): the
stat/hash read happens first and its failure propagates (`throw error`), so
this model takes the read's result as input; after a successful read the
mutation and flush attempt always complete. -/
def addOrUpdateFileFull (ws : String) (now : Nat) (p : String)
    (readRes : Option LiveFile) (writeOk : Bool) (s : FullState) :
    Except String FullState :=
  match readRes with
  | none => .error "ENOENT"
  | some live =>
    let mem := addOrUpdateFile ws now p live s.mem
    .ok { mem := mem, disk := saveDatabase writeOk mem s.disk }

/-- `close` at the full-state level (`database.ts` 259-261). -/
def closeFull (writeOk : Bool) (s : FullState) : Except String FullState :=
  .ok { mem := s.mem, disk := saveDatabase writeOk s.mem s.disk }

/-! ## C8 — load failures reset the store to empty -/

/-- C8: at store construction, a missing durable blob and a corrupt durable
blob (whatever its raw content) both leave the store in the empty state —
no endpoint records, no file records, `nextId = 1` — and construction
completes without raising (the model `initDatabase` is a total function into
`DatabaseData`, with no error outcome: the catch-all swallows the parse
error); no part of the corrupt blob is recovered, since the result does not
depend on its content. -/
theorem initDatabase_missing_or_corrupt_resets_empty :
    initDatabase .missing = emptyData
    ∧ (∀ raw : String, initDatabase (.corrupt raw) = emptyData)
    ∧ emptyData.endpoints = [] ∧ emptyData.files = [] ∧ emptyData.nextId = 1 := by
  refine ⟨rfl, fun _ => rfl, rfl, rfl, rfl⟩

/-! ## C10 — flush failures are invisible to callers -/

/-- C10: every mutating store operation applies its in-memory change and
returns normally (`Except.ok`) whether or not the flush succeeds; the
resulting in-memory data equals the pure mutation, independently of the
`writeOk` flag, so a flush failure neither surfaces to the caller nor rolls
the mutation back — and with `writeOk = false` the durable blob is simply
left as it was. -/
theorem mutations_survive_flush_failure :
    ∀ (ws : String) (now : Nat) (e : EndpointRecord) (p : String)
      (live : LiveFile) (writeOk : Bool) (s : FullState),
      (∃ s2, addEndpointFull ws now e writeOk s = .ok s2
        ∧ s2.mem = addEndpoint ws now s.mem e)
      ∧ (∃ s2, clearEndpointsForFileFull ws p writeOk s = .ok s2
        ∧ s2.mem = clearEndpointsForFile ws p s.mem)
      ∧ (∃ s2, addOrUpdateFileFull ws now p (some live) writeOk s = .ok s2
        ∧ s2.mem = addOrUpdateFile ws now p live s.mem)
      ∧ (∃ s2, closeFull writeOk s = .ok s2 ∧ s2.mem = s.mem)
      ∧ addEndpointFull ws now e false s =
          .ok { mem := addEndpoint ws now s.mem e, disk := s.disk } := by
  intro ws now e p live writeOk s
  refine ⟨⟨_, rfl, rfl⟩, ⟨_, rfl, rfl⟩, ⟨_, rfl, rfl⟩, ⟨_, rfl, rfl⟩, rfl⟩

/-! ## C9 — scope isolation of `clearEndpointsForFile` -/

theorem mkWorkspaceId_ne_empty (a : Option String) : mkWorkspaceId a ≠ "" := by
  cases a with
  | none => simp [mkWorkspaceId]
  | some s =>
    simp only [mkWorkspaceId]
    split
    · simp
    · simp_all

/-- C9: for two stores built with different scope identifiers (the
constructor normalizes a missing or empty identifier to `"default"`, so a
scope identifier is never empty), clearing one scope's records for a path
leaves every record stamped with the other scope — same path included —
untouched (first conjunct: the other scope's records, in order, are exactly
what they were), while no record of the clearing scope for that path
survives (second conjunct). -/
theorem clearEndpointsForFile_scope_isolation :
    ∀ (a b : Option String) (p : String) (d : DatabaseData),
      mkWorkspaceId a ≠ mkWorkspaceId b →
      ((clearEndpointsForFile (mkWorkspaceId a) p d).endpoints.filter
          (fun e => e.workspaceId = some (mkWorkspaceId b))
        = d.endpoints.filter (fun e => e.workspaceId = some (mkWorkspaceId b)))
      ∧ (∀ e ∈ (clearEndpointsForFile (mkWorkspaceId a) p d).endpoints,
          ¬(e.filePath = p ∧ e.workspaceId = some (mkWorkspaceId a))) := by
  intro a b p d hab
  constructor
  · show List.filter _ (List.filter _ d.endpoints) = _
    rw [List.filter_filter]
    apply List.filter_congr
    intro x _
    by_cases hw : x.workspaceId = some (mkWorkspaceId b)
    · simp [hw]
      right
      constructor
      · intro hc
        exact hab hc.symm
      · simp [jsTruthy, mkWorkspaceId_ne_empty b]
    · simp [hw]
  · intro e he hc
    rw [clearEndpointsForFile, List.mem_filter] at he
    rcases hc with ⟨hp, hw⟩
    have := he.2
    simp [hp, hw] at this

/-- A concrete endpoint record for examples and witnesses. -/
def mkRec (m pa f fp : String) (ln : Nat) (ws : Option String) :
    EndpointRecord :=
  { id := some ln, method := m, path := pa, functionName := f, filePath := fp,
    lineNumber := ln, routerName := "app", fileHash := "x", workspaceId := ws,
    createdAt := 0 }

/-- A concrete store holding records of two scopes for the same file. -/
def exDb9 : DatabaseData :=
  { endpoints :=
      [mkRec "get" "/a" "h" "f.py" 1 (some "A"),
       mkRec "post" "/b" "g" "f.py" 2 (some "default")],
    files := [], nextId := 3 }

/-- Witness for C9 at a concrete store: scopes `"A"` and `"default"`, two
records for the same file, one per scope. -/
theorem clearEndpointsForFile_scope_isolation_witness :
    (clearEndpointsForFile (mkWorkspaceId (some "A")) "f.py" exDb9).endpoints.filter
        (fun e => e.workspaceId = some (mkWorkspaceId none))
      = exDb9.endpoints.filter
        (fun e => e.workspaceId = some (mkWorkspaceId none)) :=
  (clearEndpointsForFile_scope_isolation (some "A") none "f.py" exDb9
    (by decide)).1

/-! ## Lawfulness of the `sortEndpointsByMethod` comparator -/

/-- Pulling a lawful comparator back along a key function keeps it lawful. -/
theorem lawCmp_pullback {β : Type} {cmp : β → β → Ordering} (f : α → β)
    (h : LawCmp cmp) : LawCmp (fun a b => cmp (f a) (f b)) := by
  refine ⟨?_, ?_, ?_⟩
  · intro a b; exact h.swap (f a) (f b)
  · intro a b c hab hbc; exact h.lt_trans _ _ _ hab hbc
  · intro a b c hab; exact h.eq_left _ _ _ hab

theorem lawCmp_strCmp : LawCmp strCmp := by
  refine ⟨?_, ?_, ?_⟩
  · intro a b; exact lawCmp_charsCmp.swap a.data b.data
  · intro a b c hab hbc; exact lawCmp_charsCmp.lt_trans _ _ _ hab hbc
  · intro a b c hab; exact lawCmp_charsCmp.eq_left _ _ _ hab

/-- Pointwise-equal comparators share lawfulness. -/
theorem lawCmp_congr {c1 c2 : α → α → Ordering} (h : ∀ a b, c1 a b = c2 a b)
    (hl : LawCmp c2) : LawCmp c1 := by
  refine ⟨?_, ?_, ?_⟩
  · intro a b; rw [h, h]; exact hl.swap a b
  · intro a b c hab hbc
    rw [h] at hab hbc ⊢
    exact hl.lt_trans _ _ _ hab hbc
  · intro a b c hab
    rw [h] at hab
    rw [h, h]
    exact hl.eq_left _ _ _ hab

/-- The sort key of the method comparator: position in `methodOrder` when
found (recognized verbs first, by index), otherwise the method name itself
(unrecognized verbs after, lexically). -/
def methodRank (m : String) : Nat ⊕ String :=
  match methodIdx m with
  | some i => .inl i
  | none => .inr m

/-- Comparison of method ranks. -/
def rankCmp : Nat ⊕ String → Nat ⊕ String → Ordering
  | .inl i, .inl j => natCmp i j
  | .inl _, .inr _ => .lt
  | .inr _, .inl _ => .gt
  | .inr s, .inr t => strCmp s t

theorem lawCmp_rankCmp : LawCmp rankCmp := by
  refine ⟨?_, ?_, ?_⟩
  · intro a b
    cases a with
    | inl i =>
      cases b with
      | inl j => exact lawCmp_natCmp.swap i j
      | inr t => rfl
    | inr s =>
      cases b with
      | inl j => rfl
      | inr t => exact lawCmp_strCmp.swap s t
  · intro a b c hab hbc
    cases a with
    | inl i =>
      cases c with
      | inl k =>
        cases b with
        | inl j => exact lawCmp_natCmp.lt_trans i j k hab hbc
        | inr t => simp [rankCmp] at hbc
      | inr u => rfl
    | inr s =>
      cases b with
      | inl j => simp [rankCmp] at hab
      | inr t =>
        cases c with
        | inl k => simp [rankCmp] at hbc
        | inr u => exact lawCmp_strCmp.lt_trans s t u hab hbc
  · intro a b c hab
    cases a with
    | inl i =>
      cases b with
      | inl j =>
        have : i = j := eq_of_natCmp hab
        rw [this]
      | inr t => simp [rankCmp] at hab
    | inr s =>
      cases b with
      | inl j => simp [rankCmp] at hab
      | inr t =>
        cases c with
        | inl k => rfl
        | inr u => exact lawCmp_strCmp.eq_left s t u hab

/-- The method comparator decomposes as a lexicographic comparison of
(method rank, path). -/
theorem cmpEndpointsByMethod_eq_key (a b : EndpointRecord) :
    cmpEndpointsByMethod a b =
      lexCmp (fun x y => rankCmp (methodRank x.method) (methodRank y.method))
        (fun x y => strCmp x.path y.path) a b := by
  simp only [cmpEndpointsByMethod, lexCmp, methodRank]
  cases ha : methodIdx a.method with
  | none =>
    cases hb : methodIdx b.method with
    | none => simp only [rankCmp]
    | some bi => rfl
  | some ai =>
    cases hb : methodIdx b.method with
    | none => rfl
    | some bi =>
      simp only [rankCmp]
      by_cases h : ai = bi
      · subst h
        simp [natCmp_eqq rfl]
      · rcases g : natCmp ai bi with _ | _ | _
        · simp [g, h]
        · exact absurd (eq_of_natCmp g) h
        · simp [g, h]

theorem lawCmp_cmpEndpointsByMethod : LawCmp cmpEndpointsByMethod :=
  lawCmp_congr cmpEndpointsByMethod_eq_key
    (lawCmp_lexCmp
      (lawCmp_pullback (fun x => methodRank x.method) lawCmp_rankCmp)
      (lawCmp_pullback (fun x => x.path) lawCmp_strCmp))

/-- `sortEndpointsByMethod` always emits a permutation of its input. -/
theorem perm_sortEndpointsByMethod (l : List EndpointRecord) :
    (sortEndpointsByMethod l).Perm l :=
  List.perm_insertionSort _ l

/-- `sortEndpointsByMethod` sorts with respect to the method comparator. -/
theorem sorted_sortEndpointsByMethod (l : List EndpointRecord) :
    List.Sorted (cmpRel cmpEndpointsByMethod) (sortEndpointsByMethod l) := by
  haveI : IsTotal EndpointRecord (cmpRel cmpEndpointsByMethod) :=
    ⟨fun a b => lawCmp_total lawCmp_cmpEndpointsByMethod a b⟩
  haveI : IsTrans EndpointRecord (cmpRel cmpEndpointsByMethod) :=
    ⟨fun a b c => lawCmp_trans lawCmp_cmpEndpointsByMethod a b c⟩
  exact List.sorted_insertionSort _ l

/-! ## C1 — the ordering of `getAllEndpoints` -/

/-- Two recognized-verb records in different files: the claimed
filePath-primary ordering would put `a.py` first. -/
def exDb1 : DatabaseData :=
  { endpoints := [mkRec "POST" "/p" "h1" "a.py" 1 (some "w"),
                  mkRec "GET" "/p" "h2" "b.py" 1 (some "w")],
    files := [], nextId := 3 }

/-- C1 counterexample: `getAllEndpoints` does NOT order primarily by
`filePath` — the record from `b.py` (verb GET) is returned before the record
from `a.py` (verb POST) although `a.py` precedes `b.py` lexically, because
`sortEndpointsByMethod` re-sorts the whole already-file-sorted list and so
verb priority, not file path, is the primary key. -/
theorem getAllEndpoints_not_filePath_primary :
    (getAllEndpoints "w" exDb1).map EndpointRecord.filePath = ["b.py", "a.py"]
    ∧ charsCmp "a.py".data "b.py".data = .lt := by decide

/-- Three same-path records with the verbs of the spec's ordering example. -/
def exDb1Verbs : DatabaseData :=
  { endpoints := [mkRec "DELETE" "/p" "h1" "a.py" 1 (some "w"),
                  mkRec "GET" "/p" "h2" "a.py" 2 (some "w"),
                  mkRec "POST" "/p" "h3" "a.py" 3 (some "w")],
    files := [], nextId := 4 }

/-- C1 (amended): `getAllEndpoints` returns exactly the current-scope records
(as a permutation), ordered primarily by the fixed verb-priority ordering
GET, POST, PUT, PATCH, DELETE, OPTIONS, HEAD — unrecognized verbs after all
recognized ones, ties among unrecognized broken lexically by verb name — and
then lexically by `path` (the prior filePath/lineNumber sort only survives as
a stable tie-break); in particular, for three endpoints with verbs DELETE,
GET, POST on the same path the returned order is GET, POST, DELETE. -/
theorem getAllEndpoints_verb_priority_order :
    (∀ (ws : String) (d : DatabaseData),
      (getAllEndpoints ws d).Perm
          (d.endpoints.filter fun e => inScope ws e.workspaceId)
      ∧ List.Sorted (cmpRel cmpEndpointsByMethod) (getAllEndpoints ws d))
    ∧ (getAllEndpoints "w" exDb1Verbs).map EndpointRecord.method
        = ["GET", "POST", "DELETE"] := by
  constructor
  · intro ws d
    constructor
    · exact (perm_sortEndpointsByMethod _).trans (List.perm_insertionSort _ _)
    · exact sorted_sortEndpointsByMethod _
  · decide

/-! ## C7 — `searchEndpoints` -/

/-- A record whose fields are all uppercase, for the case-insensitivity
example. -/
def exDb7 : DatabaseData :=
  { endpoints := [mkRec "GET" "/USERS" "H" "A.PY" 1 (some "w")],
    files := [], nextId := 2 }

/-- C7: `searchEndpoints term` returns exactly (as a permutation, and with a
membership characterization) the current-scope records in which the
lowercased term occurs as a substring of the lowercased method, path, handler
name or file path — any one field suffices — ordered by the verb-priority
comparator; in particular the term `"user"` matches a record with path
`"/USERS"` although every field of it is uppercase. -/
theorem searchEndpoints_characterization :
    (∀ (term ws : String) (d : DatabaseData),
      (searchEndpoints term ws d).Perm
          (d.endpoints.filter fun e =>
            inScope ws e.workspaceId && matchesSearch term e)
      ∧ List.Sorted (cmpRel cmpEndpointsByMethod) (searchEndpoints term ws d)
      ∧ ∀ e, e ∈ searchEndpoints term ws d ↔
          (e ∈ d.endpoints ∧ inScope ws e.workspaceId = true
            ∧ (strIncludes (lowerStr e.method) (lowerStr term) = true
              ∨ strIncludes (lowerStr e.path) (lowerStr term) = true
              ∨ strIncludes (lowerStr e.functionName) (lowerStr term) = true
              ∨ strIncludes (lowerStr e.filePath) (lowerStr term) = true)))
    ∧ (searchEndpoints "user" "w" exDb7).map EndpointRecord.path = ["/USERS"] := by
  constructor
  · intro term ws d
    refine ⟨perm_sortEndpointsByMethod _, sorted_sortEndpointsByMethod _, ?_⟩
    intro e
    unfold searchEndpoints sortEndpointsByMethod
    rw [(List.perm_insertionSort _ _).mem_iff, List.mem_filter]
    simp only [matchesSearch, Bool.and_eq_true, Bool.or_eq_true, and_assoc,
      or_assoc]
  · decide

/-! ## C6 — `isFileIndexed` and the skip of an unchanged file -/

/-- C6: `isFileIndexed` returns false exactly when no scoped FileRecord for
the path exists, or the file cannot be read/statted (the file-system map
yields `none`), or the stored record's fingerprint or modification time
differs from the file's current ones; consequently, for an unchanged file
(same hash, same mtime) it returns true and the per-file step of
`indexWorkspace` leaves the store — its endpoint collection included —
entirely unchanged. -/
theorem isFileIndexed_characterization :
    (∀ (ws : String) (fs : FileSys) (d : DatabaseData) (p : String),
      isFileIndexed ws fs d p = false ↔
        (findFileRecord ws p d = none ∨ fs p = none ∨
          ∃ fr live, findFileRecord ws p d = some fr ∧ fs p = some live ∧
            (fr.fileHash ≠ live.hash ∨ fr.lastModified ≠ live.mtimeMs)))
    ∧ (∀ (ws : String) (now : Nat) (fs : FileSys) (d : DatabaseData)
        (p : String) (fr : FileRecord) (live : LiveFile),
        findFileRecord ws p d = some fr → fs p = some live →
        fr.fileHash = live.hash → fr.lastModified = live.mtimeMs →
        isFileIndexed ws fs d p = true ∧ indexWorkspaceStep ws now fs p d = d) := by
  constructor
  · intro ws fs d p
    unfold isFileIndexed
    cases hf : findFileRecord ws p d with
    | none => simp
    | some fr =>
      cases hl : fs p with
      | none => simp
      | some live =>
        by_cases h1 : fr.fileHash = live.hash
        · by_cases h2 : fr.lastModified = live.mtimeMs
          · simp [h1, h2]
          · simp [h1, h2]
        · simp [h1]
  · intro ws now fs d p fr live hf hl h1 h2
    have hidx : isFileIndexed ws fs d p = true := by
      unfold isFileIndexed
      rw [hf, hl]
      simp [h1, h2]
    refine ⟨hidx, ?_⟩
    unfold indexWorkspaceStep
    rw [hidx]
    simp

/-- A one-file store and a file system agreeing with it, for the C6 witness. -/
def exFileRec6 : FileRecord :=
  { id := some 1, filePath := "f.py", fileHash := "h1", lastModified := 5,
    isIndexed := true, workspaceId := some "w", createdAt := 0 }

/-- The store holding `exFileRec6` and one endpoint record. -/
def exDb6 : DatabaseData :=
  { endpoints := [mkRec "get" "/a" "h" "f.py" 1 (some "w")],
    files := [exFileRec6], nextId := 3 }

/-- The file system for the C6 witness: `f.py` unchanged since indexing. -/
def exFs6 : FileSys :=
  fun s => if s = "f.py" then some { lines := ["x"], hash := "h1", mtimeMs := 5 }
           else none

/-- Witness for C6: on the unchanged `f.py`, `isFileIndexed` is true and the
per-file pass step is a no-op. -/
theorem isFileIndexed_characterization_witness :
    isFileIndexed "w" exFs6 exDb6 "f.py" = true
    ∧ indexWorkspaceStep "w" 9 exFs6 "f.py" exDb6 = exDb6 :=
  isFileIndexed_characterization.2 "w" 9 exFs6 exDb6 "f.py" exFileRec6
    { lines := ["x"], hash := "h1", mtimeMs := 5 }
    (by decide) (by decide) (by decide) (by decide)

/-! ## C5 — the handler-name lookahead -/

theorem startsWithL_iff_append (p : List Char) :
    ∀ l, startsWithL p l = true ↔ ∃ r, l = p ++ r := by
  induction p with
  | nil =>
    intro l
    constructor
    · intro _; exact ⟨l, rfl⟩
    · intro _; rfl
  | cons c cs ih =>
    intro l
    cases l with
    | nil =>
      constructor
      · intro h; simp [startsWithL] at h
      · rintro ⟨r, hr⟩; simp at hr
    | cons x xs =>
      constructor
      · intro h
        simp only [startsWithL, Bool.and_eq_true, decide_eq_true_eq] at h
        rcases (ih xs).mp h.2 with ⟨r, hr⟩
        refine ⟨r, ?_⟩
        rw [← h.1, hr]
        rfl
      · rintro ⟨r, hr⟩
        injection hr with h1 h2
        simp only [startsWithL, Bool.and_eq_true, decide_eq_true_eq]
        exact ⟨h1.symm, (ih xs).mpr ⟨r, h2⟩⟩

/-- Following the specification text for step 7 of the recognizer: on a line
whose trimmed text begins with a function-definition keyword (with or without
the asynchronous qualifier), the identifier immediately following the keyword
(first maximal word after the keyword and any whitespace), as characters. -/
def specIdentChars (t : List Char) : Option (List Char) :=
  if startsWithL "async def ".data t then
    let w := ((t.drop 10).dropWhile isSpaceC).takeWhile isWordC
    if w.isEmpty then none else some w
  else if startsWithL "def ".data t then
    let w := ((t.drop 4).dropWhile isSpaceC).takeWhile isWordC
    if w.isEmpty then none else some w
  else none

/-- The spec-side handler identifier of a line. -/
def specHandlerIdent (s : String) : Option String :=
  (specIdentChars (jsTrim s.data)).map String.mk

theorem specIdentChars_async (rest : List Char) :
    specIdentChars ("async def ".data ++ rest) =
      (if ((rest.dropWhile isSpaceC).takeWhile isWordC).isEmpty then none
       else some ((rest.dropWhile isSpaceC).takeWhile isWordC)) := rfl

theorem specIdentChars_defOnly (rest : List Char) :
    specIdentChars ("def ".data ++ rest) =
      (if ((rest.dropWhile isSpaceC).takeWhile isWordC).isEmpty then none
       else some ((rest.dropWhile isSpaceC).takeWhile isWordC)) := rfl

theorem matchDefAfter_eq (rest : List Char) :
    matchDefAfter ("def ".data ++ rest) =
      (if ((rest.dropWhile isSpaceC).takeWhile isWordC).isEmpty then none
       else some ((rest.dropWhile isSpaceC).takeWhile isWordC)) := rfl

theorem matchDefAt_def (rest : List Char) :
    matchDefAt ("def ".data ++ rest) = matchDefAfter ("def ".data ++ rest) :=
  rfl

theorem matchDefAt_async (rest : List Char) :
    matchDefAt ("async def ".data ++ rest) =
      matchDefAfter ("def ".data ++ rest) := by
  cases hm : matchDefAfter ("def ".data ++ rest) with
  | some w =>
    show (match matchDefAfter ("def ".data ++ rest) with
          | some w => some w
          | none => matchDefAfter ("async def ".data ++ rest)) = some w
    rw [hm]
  | none =>
    show (match matchDefAfter ("def ".data ++ rest) with
          | some w => some w
          | none => matchDefAfter ("async def ".data ++ rest)) = none
    rw [hm]
    rfl

theorem searchDef_cons_some (c : Char) (r w : List Char)
    (h : matchDefAt (c :: r) = some w) : searchDef (c :: r) = some w := by
  unfold searchDef
  rw [h]

/-- On a trimmed line that begins with a function-definition keyword, the
regex search finds exactly the spec-side identifier. -/
theorem searchDef_of_specIdent (t wc : List Char)
    (hd : startsWithL "def ".data t = true
      ∨ startsWithL "async def ".data t = true)
    (hspec : specIdentChars t = some wc) :
    searchDef t = some wc := by
  by_cases hasync : startsWithL "async def ".data t = true
  · rcases (startsWithL_iff_append _ t).mp hasync with ⟨rest, hr⟩
    subst hr
    rw [specIdentChars_async rest] at hspec
    by_cases he : ((rest.dropWhile isSpaceC).takeWhile isWordC).isEmpty
    · rw [if_pos he] at hspec
      exact Option.noConfusion hspec
    · rw [if_neg he] at hspec
      have hm2 : matchDefAt ("async def ".data ++ rest) =
          some ((rest.dropWhile isSpaceC).takeWhile isWordC) := by
        rw [matchDefAt_async, matchDefAfter_eq, if_neg he]
      rw [← hspec]
      exact searchDef_cons_some 'a'
        ('s' :: 'y' :: 'n' :: 'c' :: ' ' :: 'd' :: 'e' :: 'f' :: ' ' :: rest)
        _ hm2
  · rcases hd with hdef | hx
    · rcases (startsWithL_iff_append _ t).mp hdef with ⟨rest, hr⟩
      subst hr
      rw [specIdentChars_defOnly rest] at hspec
      by_cases he : ((rest.dropWhile isSpaceC).takeWhile isWordC).isEmpty
      · rw [if_pos he] at hspec
        exact Option.noConfusion hspec
      · rw [if_neg he] at hspec
        have hm2 : matchDefAt ("def ".data ++ rest) =
            some ((rest.dropWhile isSpaceC).takeWhile isWordC) := by
          rw [matchDefAt_def, matchDefAfter_eq, if_neg he]
        rw [← hspec]
        exact searchDef_cons_some 'd' ('e' :: 'f' :: ' ' :: rest) _ hm2
    · exact absurd hx hasync

theorem scanDefWindow_all_not (l : List String)
    (h : ∀ x ∈ l, isDefLine x = false) : scanDefWindow l = "unknown" := by
  induction l with
  | nil => rfl
  | cons a as ih =>
    have ha : isDefLine a = false := h a (by simp)
    simp only [scanDefWindow, ha]
    simp only [Bool.false_eq_true, if_false]
    exact ih fun x hx => h x (List.mem_cons_of_mem _ hx)

theorem scanDefWindow_append (pre rest : List String)
    (h : ∀ x ∈ pre, isDefLine x = false) :
    scanDefWindow (pre ++ rest) = scanDefWindow rest := by
  induction pre with
  | nil => rfl
  | cons a as ih =>
    have ha : isDefLine a = false := h a (by simp)
    simp only [List.cons_append, scanDefWindow, ha]
    simp only [Bool.false_eq_true, if_false]
    exact ih fun x hx => h x (List.mem_cons_of_mem _ hx)

/-- The lines used for the C5 lookahead-boundary example: the decorator on
line 1, ten filler lines, and a function definition at lookahead offset 11. -/
def exLines5 : List String :=
  ["@app.get(\"/x\")", "a", "b", "c", "d", "e", "f", "g", "h", "i", "j",
   "def handler():"]

/-- C5: `findFunctionName` scans exactly the 10 lines after the decorator
line: (1) if no line of that window starts (trimmed) with a
function-definition keyword, the result is `"unknown"`; (2) the result is the
identifier following the keyword on the first such line of the window
(whenever that line carries an identifier after its keyword); (3) in
particular a definition at lookahead offset 11 — `exLines5`, whose `def`
line is the 12th — is not seen and the result is `"unknown"`. -/
theorem findFunctionName_lookahead :
    (∀ (lines : List String) (n : Nat),
      (∀ l ∈ (lines.drop n).take 10, isDefLine l = false) →
      findFunctionName lines n = "unknown")
    ∧ (∀ (lines : List String) (n : Nat) (pre suf : List String)
        (l : String) (w : String),
        (lines.drop n).take 10 = pre ++ l :: suf →
        (∀ x ∈ pre, isDefLine x = false) →
        isDefLine l = true →
        specHandlerIdent l = some w →
        findFunctionName lines n = w)
    ∧ findFunctionName exLines5 1 = "unknown" := by
  refine ⟨?_, ?_, by decide⟩
  · intro lines n h
    unfold findFunctionName
    exact scanDefWindow_all_not _ h
  · intro lines n pre suf l w hwin hpre hdef hspec
    unfold findFunctionName
    rw [hwin, scanDefWindow_append pre _ hpre]
    rcases hmw : specIdentChars (jsTrim l.data) with _ | wc
    · rw [specHandlerIdent, hmw] at hspec
      exact Option.noConfusion hspec
    · have hw : String.mk wc = w := by
        rw [specHandlerIdent, hmw] at hspec
        exact Option.some.inj hspec
      have hor : startsWithL "def ".data (jsTrim l.data) = true
          ∨ startsWithL "async def ".data (jsTrim l.data) = true := by
        have := hdef
        unfold isDefLine at this
        rcases Bool.or_eq_true_iff.mp this with h1 | h2
        · exact Or.inl h1
        · exact Or.inr h2
      have hs : searchDef (jsTrim l.data) = some wc :=
        searchDef_of_specIdent _ _ hor hmw
      simp only [scanDefWindow, hdef, if_true, hs, hw]

/-- Concrete lines for the C5 witness: a filler line, then an asynchronous
handler definition at lookahead offset 2. -/
def exLines5w : List String :=
  ["@app.get(\"/x\")", "x = 1", "async def handler(q):"]

/-- Witness for C5: applying the lookahead theorem at `exLines5w` finds
`handler`. -/
theorem findFunctionName_lookahead_witness :
    findFunctionName exLines5w 1 = "handler" :=
  findFunctionName_lookahead.2.1 exLines5w 1 ["x = 1"] []
    "async def handler(q):" "handler"
    (by decide) (by decide) (by decide) (by decide)

/-! ## C4 — `api_route` verb resolution -/

theorem resolveMethod_api_route (args : List Char) :
    resolveMethod "api_route" args =
      (extractMethodFromApiRoute args).getD "get" := by
  unfold resolveMethod
  rw [if_pos rfl]

/-- C4: on a decorator line whose (lowercased) call name is `api_route` and
whose argument text carries a string-literal path, the emitted record's
method is the lowercased first verb of a `methods=[...]` sub-expression when
`extractMethodFromApiRoute` finds one and `get` otherwise (first conjunct);
when the verb so resolved is not one of the seven recognized HTTP verbs the
line yields no record at all rather than being defaulted again (second
conjunct); concretely, `methods=["POST"]` gives `post`, a missing `methods`
gives `get`, the first of several listed verbs wins, and `methods=["FOO"]`
yields no record (third conjunct). -/
theorem apiRoute_method_resolution :
    (∀ (line : String) (lines : List String) (n : Nat) (r : ParsedEndpoint)
      (router mName args : String),
      decomposeDecorator line = some (router, mName, args) →
      lowerStr mName = "api_route" →
      parseEndpointLine line lines n = some r →
      r.method = (extractMethodFromApiRoute args.data).getD "get")
    ∧ (∀ (line : String) (lines : List String) (n : Nat)
        (router mName args : String),
        decomposeDecorator line = some (router, mName, args) →
        lowerStr mName = "api_route" →
        httpMethods.contains ((extractMethodFromApiRoute args.data).getD "get") = false →
        parseEndpointLine line lines n = none)
    ∧ ((parseEndpointLine "@app.api_route(\"/x\", methods=[\"POST\"])" [] 1).map
          ParsedEndpoint.method = some "post"
      ∧ (parseEndpointLine "@app.api_route(\"/x\")" [] 1).map
          ParsedEndpoint.method = some "get"
      ∧ (parseEndpointLine "@app.api_route(\"/x\", methods=[\"PUT\", \"DELETE\"])" [] 1).map
          ParsedEndpoint.method = some "put"
      ∧ parseEndpointLine "@app.api_route(\"/x\", methods=[\"FOO\"])" [] 1 = none) := by
  refine ⟨?_, ?_, by decide, by decide, by decide, by decide⟩
  · intro line lines n r router mName args hdec hlow hparse
    unfold parseEndpointLine at hparse
    rw [hdec] at hparse
    replace hparse : parseFromParts lines n router mName args = some r := hparse
    unfold parseFromParts at hparse
    rw [hlow] at hparse
    rw [if_pos (show validMethods.contains "api_route" = true from by decide)]
      at hparse
    cases hlit : extractStringLiteral args.data with
    | none =>
      rw [hlit] at hparse
      exact Option.noConfusion hparse
    | some pc =>
      rw [hlit] at hparse
      replace hparse :
          (if httpMethods.contains (resolveMethod "api_route" args.data) = true
           then some { method := resolveMethod "api_route" args.data,
                       path := String.mk pc,
                       functionName := findFunctionName lines n,
                       routerName := router, lineNumber := n }
           else (none : Option ParsedEndpoint)) = some r := hparse
      by_cases hc : httpMethods.contains (resolveMethod "api_route" args.data) = true
      · rw [if_pos hc] at hparse
        have h2 := Option.some.inj hparse
        rw [← h2]
        show resolveMethod "api_route" args.data = _
        rw [resolveMethod_api_route]
      · rw [if_neg hc] at hparse
        exact Option.noConfusion hparse
  · intro line lines n router mName args hdec hlow hc
    unfold parseEndpointLine
    rw [hdec]
    show parseFromParts lines n router mName args = none
    unfold parseFromParts
    rw [hlow]
    rw [if_pos (show validMethods.contains "api_route" = true from by decide)]
    cases hlit : extractStringLiteral args.data with
    | none => rfl
    | some pc =>
      show (if httpMethods.contains (resolveMethod "api_route" args.data) = true
            then some { method := resolveMethod "api_route" args.data,
                        path := String.mk pc,
                        functionName := findFunctionName lines n,
                        routerName := router, lineNumber := n }
            else (none : Option ParsedEndpoint)) = none
      rw [resolveMethod_api_route]
      rw [if_neg (by rw [hc]; exact Bool.false_ne_true)]

/-- A concrete application of the C4 theorem: the unrecognized resolved verb
of `methods=["OPTION"]` makes the line yield no record; every hypothesis is
discharged by computation. -/
theorem apiRoute_method_resolution_witness :
    parseEndpointLine "@app.api_route(\"/x\", methods=[\"OPTION\"])" [] 1 = none :=
  apiRoute_method_resolution.2.1 "@app.api_route(\"/x\", methods=[\"OPTION\"])"
    [] 1 "app" "api_route" "\"/x\", methods=[\"OPTION\"])"
    (by decide) (by decide) (by decide)

/-! ## C3 — the recognizer's shape filter and string-literal extraction -/

theorem findIdxC_squote_head (rest : List Char) :
    findIdxC (fun c => c = squoteC) (squoteC :: rest) = some 0 := rfl

theorem findIdxC_dquote_shead (rest : List Char) :
    findIdxC (fun c => c = dquoteC) (squoteC :: rest) =
      (findIdxC (fun c => c = dquoteC) rest).map (· + 1) := rfl

theorem findIdxC_dquote_head (rest : List Char) :
    findIdxC (fun c => c = dquoteC) (dquoteC :: rest) = some 0 := rfl

theorem findIdxC_squote_dhead (rest : List Char) :
    findIdxC (fun c => c = squoteC) (dquoteC :: rest) =
      (findIdxC (fun c => c = squoteC) rest).map (· + 1) := rfl

theorem findIdxC_cons_neg (p : Char → Bool) (c : Char) (rest : List Char)
    (h : p c = false) :
    findIdxC p (c :: rest) = (findIdxC p rest).map (· + 1) := by
  simp [findIdxC, h]

theorem chosenQuote_cons_squote (rest : List Char) :
    chosenQuote (squoteC :: rest) = some (0, squoteC) := by
  unfold chosenQuote
  rw [findIdxC_squote_head, findIdxC_dquote_shead]
  cases hd : findIdxC (fun c => c = dquoteC) rest with
  | none => rfl
  | some di =>
    show (if 0 < di + 1 then some (0, squoteC) else some (di + 1, dquoteC))
      = some (0, squoteC)
    rw [if_pos (Nat.succ_pos di)]

theorem chosenQuote_cons_dquote (rest : List Char) :
    chosenQuote (dquoteC :: rest) = some (0, dquoteC) := by
  unfold chosenQuote
  rw [findIdxC_squote_dhead, findIdxC_dquote_head]
  cases hs : findIdxC (fun c => c = squoteC) rest with
  | none => rfl
  | some si =>
    show (if si + 1 < 0 then some (si + 1, squoteC) else some (0, dquoteC))
      = some (0, dquoteC)
    rw [if_neg (Nat.not_lt_zero _)]

theorem chosenQuote_cons_nonquote (c : Char) (rest : List Char)
    (h1 : ¬ c = squoteC) (h2 : ¬ c = dquoteC) :
    chosenQuote (c :: rest) =
      (chosenQuote rest).map (fun p => (p.1 + 1, p.2)) := by
  unfold chosenQuote
  rw [findIdxC_cons_neg _ _ _ (by simp [h1]),
      findIdxC_cons_neg _ _ _ (by simp [h2])]
  cases hs : findIdxC (fun d => d = squoteC) rest with
  | none =>
    cases hd : findIdxC (fun d => d = dquoteC) rest with
    | none => rfl
    | some di => rfl
  | some si =>
    cases hd : findIdxC (fun d => d = dquoteC) rest with
    | none => rfl
    | some di =>
      show (if si + 1 < di + 1 then some (si + 1, squoteC)
            else some (di + 1, dquoteC))
        = ((if si < di then some (si, squoteC) else some (di, dquoteC)).map
            (fun p => (p.1 + 1, p.2)))
      by_cases hlt : si < di
      · rw [if_pos (Nat.add_lt_add_right hlt 1), if_pos hlt]
        rfl
      · rw [if_neg (fun hc => hlt (Nat.lt_of_add_lt_add_right hc)), if_neg hlt]
        rfl

theorem idxOfFrom_one_cons (q c : Char) (rest : List Char) :
    idxOfFrom q 1 (c :: rest) =
      (findIdxC (fun d => d = q) rest).map (· + 1) := rfl

theorem literalFrom_head (q : Char) (rest : List Char) :
    literalFrom q 0 (q :: rest) =
      (match findIdxC (fun d => d = q) rest with
       | none => none
       | some j => some (rest.take j)) := by
  unfold literalFrom
  rw [show (0 : Nat) + 1 = 1 from rfl, idxOfFrom_one_cons]
  cases h : findIdxC (fun d => d = q) rest with
  | none => rfl
  | some j =>
    show some (((q :: rest).take (j + 1)).drop 1) = some (rest.take j)
    rw [List.take_succ_cons]
    rfl

theorem literalFrom_cons (q c : Char) (qi : Nat) (rest : List Char) :
    literalFrom q (qi + 1) (c :: rest) = literalFrom q qi rest := by
  unfold literalFrom idxOfFrom
  rw [show (c :: rest).drop (qi + 1 + 1) = rest.drop (qi + 1) from rfl]
  cases h : findIdxC (fun d => d = q) (rest.drop (qi + 1)) with
  | none => rfl
  | some j =>
    show some (((c :: rest).take (j + (qi + 1 + 1))).drop (qi + 1 + 1))
      = some ((rest.take (j + (qi + 1))).drop (qi + 1))
    rw [show j + (qi + 1 + 1) = (j + (qi + 1)) + 1 from by omega]
    rw [List.take_succ_cons, List.drop_succ_cons]

theorem specStringLiteral_cons_nonquote (c : Char) (rest : List Char)
    (h1 : ¬ c = squoteC) (h2 : ¬ c = dquoteC) :
    specStringLiteral (c :: rest) = specStringLiteral rest := by
  conv_lhs => unfold specStringLiteral
  rw [if_neg (by simp [h1, h2])]

theorem specStringLiteral_cons_quote (q : Char) (rest : List Char)
    (hq : (q = squoteC || q = dquoteC) = true) :
    specStringLiteral (q :: rest) =
      (match findIdxC (fun d => d = q) rest with
       | none => none
       | some j => some (rest.take j)) := by
  unfold specStringLiteral
  rw [if_pos hq]

/-- The source's two-`indexOf` quote selection and same-quote termination
scan computes exactly what the specification describes. -/
theorem extract_eq_specStringLiteral :
    ∀ args, extractStringLiteral args = specStringLiteral args := by
  intro args
  induction args with
  | nil => rfl
  | cons c rest ih =>
    by_cases h1 : c = squoteC
    · subst h1
      unfold extractStringLiteral
      rw [chosenQuote_cons_squote]
      show literalFrom squoteC 0 (squoteC :: rest) = _
      rw [literalFrom_head, specStringLiteral_cons_quote squoteC rest (by decide)]
    · by_cases h2 : c = dquoteC
      · subst h2
        unfold extractStringLiteral
        rw [chosenQuote_cons_dquote]
        show literalFrom dquoteC 0 (dquoteC :: rest) = _
        rw [literalFrom_head, specStringLiteral_cons_quote dquoteC rest (by decide)]
      · unfold extractStringLiteral
        rw [chosenQuote_cons_nonquote c rest h1 h2,
            specStringLiteral_cons_nonquote c rest h1 h2, ← ih]
        unfold extractStringLiteral
        cases hch : chosenQuote rest with
        | none => rfl
        | some pair =>
          obtain ⟨qi, qc⟩ := pair
          show literalFrom qc (qi + 1) (c :: rest) = literalFrom qc qi rest
          exact literalFrom_cons qc c qi rest

theorem decomposeDecorator_startsWith (line : String)
    (router mName args : String)
    (h : decomposeDecorator line = some (router, mName, args)) :
    startsWithL "@".data (jsTrim line.data) = true := by
  unfold decomposeDecorator at h
  by_cases hs : startsWithL "@".data (jsTrim line.data) = true
  · exact hs
  · rw [if_neg hs] at h
    exact Option.noConfusion h

/-- C3: the recognizer emits a record only for lines of the accepted shape —
trimmed line starting with `@`, a `.` then a `(` (that is exactly when
`decomposeDecorator` succeeds), and a call name whose lowercase form is in
the recognized set (last conjunct of the existential) — and when it emits,
the record's path is precisely the spec-described first string literal of
the argument text (first conjunct: the source's extraction equals, on every
input, the spec's first-quote / same-closing-quote description, which also
settles the earlier-quote-wins and unterminated-literal cases); a
non-recognized call name (third conjunct) or an argument text without a
terminated string literal (fourth conjunct) yields no record. -/
theorem recognizer_shape_and_literal :
    (∀ args : List Char, extractStringLiteral args = specStringLiteral args)
    ∧ (∀ (line : String) (lines : List String) (n : Nat) (r : ParsedEndpoint),
        parseEndpointLine line lines n = some r →
        ∃ router mName args,
          decomposeDecorator line = some (router, mName, args)
          ∧ startsWithL "@".data (jsTrim line.data) = true
          ∧ validMethods.contains (lowerStr mName) = true
          ∧ specStringLiteral args.data = some r.path.data)
    ∧ (∀ (line : String) (lines : List String) (n : Nat)
        (router mName args : String),
        decomposeDecorator line = some (router, mName, args) →
        validMethods.contains (lowerStr mName) = false →
        parseEndpointLine line lines n = none)
    ∧ (∀ (line : String) (lines : List String) (n : Nat)
        (router mName args : String),
        decomposeDecorator line = some (router, mName, args) →
        specStringLiteral args.data = none →
        parseEndpointLine line lines n = none) := by
  refine ⟨extract_eq_specStringLiteral, ?_, ?_, ?_⟩
  · intro line lines n r hparse
    cases hdec : decomposeDecorator line with
    | none =>
      unfold parseEndpointLine at hparse
      rw [hdec] at hparse
      exact Option.noConfusion hparse
    | some parts =>
      obtain ⟨router, mName, args⟩ := parts
      unfold parseEndpointLine at hparse
      rw [hdec] at hparse
      replace hparse : parseFromParts lines n router mName args = some r := hparse
      unfold parseFromParts at hparse
      by_cases hv : validMethods.contains (lowerStr mName) = true
      · rw [if_pos hv] at hparse
        cases hlit : extractStringLiteral args.data with
        | none =>
          rw [hlit] at hparse
          exact Option.noConfusion hparse
        | some pc =>
          rw [hlit] at hparse
          replace hparse :
              (if httpMethods.contains (resolveMethod (lowerStr mName) args.data) = true
               then some { method := resolveMethod (lowerStr mName) args.data,
                           path := String.mk pc,
                           functionName := findFunctionName lines n,
                           routerName := router, lineNumber := n }
               else (none : Option ParsedEndpoint)) = some r := hparse
          by_cases hh : httpMethods.contains (resolveMethod (lowerStr mName) args.data) = true
          · rw [if_pos hh] at hparse
            have h2 := Option.some.inj hparse
            refine ⟨router, mName, args, rfl,
              decomposeDecorator_startsWith _ _ _ _ hdec, hv, ?_⟩
            rw [← extract_eq_specStringLiteral, hlit, ← h2]
          · rw [if_neg hh] at hparse
            exact Option.noConfusion hparse
      · rw [if_neg hv] at hparse
        exact Option.noConfusion hparse
  · intro line lines n router mName args hdec hv
    unfold parseEndpointLine
    rw [hdec]
    show parseFromParts lines n router mName args = none
    unfold parseFromParts
    rw [if_neg (by rw [hv]; exact Bool.false_ne_true)]
  · intro line lines n router mName args hdec hspec
    have hlit : extractStringLiteral args.data = none := by
      rw [extract_eq_specStringLiteral, hspec]
    unfold parseEndpointLine
    rw [hdec]
    show parseFromParts lines n router mName args = none
    unfold parseFromParts
    by_cases hv : validMethods.contains (lowerStr mName) = true
    · rw [if_pos hv, hlit]
    · rw [if_neg hv]

/-- Witness for C3: the unrecognized call name `bar` yields no record. -/
theorem recognizer_shape_and_literal_witness :
    parseEndpointLine "@foo.bar(\"/x\")" [] 1 = none :=
  recognizer_shape_and_literal.2.2.1 "@foo.bar(\"/x\")" [] 1 "foo" "bar"
    "\"/x\")" (by decide) (by decide)

/-! ## C2 — replacement of a file's records on re-index -/

/-- The content-determined projection of an endpoint record (ids, scope
stamps and timestamps stripped). -/
def projE (e : EndpointRecord) : String × String × String × String × Nat :=
  (e.method, e.path, e.functionName, e.filePath, e.lineNumber)

/-- Everything about a record except its numeric id: all parsed fields plus
router name, file hash, creation time and scope stamp. Two records with the
same `projFull` differ at most in the auto-assigned id. -/
def projFull (e : EndpointRecord) :
    String × String × String × String × Nat × String × String × Nat ×
      Option String :=
  (e.method, e.path, e.functionName, e.filePath, e.lineNumber, e.routerName,
   e.fileHash, e.createdAt, e.workspaceId)

/-- The id-free part of the stamp `addEndpoint` applies: scope and creation
time. `projFull` cannot tell a pushed record from its `restamp` image. -/
def restamp (ws : String) (now : Nat) (e : EndpointRecord) : EndpointRecord :=
  { e with workspaceId := some ws, createdAt := now }

theorem addOrUpdateFile_endpoints (ws : String) (now : Nat) (p : String)
    (live : LiveFile) (d : DatabaseData) :
    (addOrUpdateFile ws now p live d).endpoints = d.endpoints := by
  unfold addOrUpdateFile
  cases h1 : d.files.findIdx? (fun f => f.filePath = p) with
  | none => rfl
  | some i =>
    show (updateFileAt ws p live i d).endpoints = d.endpoints
    unfold updateFileAt
    cases h2 : d.files.get? i with
    | none => rfl
    | some old => rfl

theorem foldl_addEndpoint_filter (ws : String) (now : Nat) (p : String) :
    ∀ (eps : List EndpointRecord) (d : DatabaseData),
      (((eps.foldl (addEndpoint ws now) d).endpoints).filter
          (fun e => e.filePath = p && inScope ws e.workspaceId)).map projFull
        = ((d.endpoints.filter
              (fun e => e.filePath = p && inScope ws e.workspaceId)).map projFull)
            ++ ((eps.filter (fun e => e.filePath = p)).map
                (fun e => projFull (restamp ws now e))) := by
  intro eps
  induction eps with
  | nil => intro d; simp
  | cons e eps ih =>
    intro d
    show (((eps.foldl (addEndpoint ws now) (addEndpoint ws now d e)).endpoints).filter
        _).map projFull = _
    rw [ih (addEndpoint ws now d e)]
    have hadd : (addEndpoint ws now d e).endpoints
        = d.endpoints ++ [stampRecord ws now d e] := rfl
    rw [hadd, List.filter_append, List.map_append, List.append_assoc]
    by_cases hp : e.filePath = p
    · simp [List.filter_cons, hp, inScope, projFull, stampRecord, restamp]
    · simp [List.filter_cons, hp, inScope, stampRecord]

theorem filter_clearEndpointsForFile (ws : String) (p : String)
    (d : DatabaseData) :
    (clearEndpointsForFile ws p d).endpoints.filter
        (fun e => e.filePath = p && inScope ws e.workspaceId) = [] := by
  show List.filter _ (List.filter _ d.endpoints) = []
  rw [List.filter_filter, List.filter_eq_nil_iff]
  intro a _
  by_cases hf : a.filePath = p
  · by_cases hw : a.workspaceId = some ws
    · simp [hf, hw, inScope]
    · by_cases ht : jsTruthy a.workspaceId = true
      · simp [hf, hw, ht, inScope]
      · simp [hf, hw, ht, inScope]
  · simp [hf]

theorem getEndpointsByFile_perm (p ws : String) (d : DatabaseData) :
    (getEndpointsByFile p ws d).Perm
      (d.endpoints.filter (fun e => e.filePath = p && inScope ws e.workspaceId)) :=
  (perm_sortEndpointsByMethod _).trans (List.perm_insertionSort _ _)

/-- A store holding one stale endpoint record for `f.py` and no file record,
so a pass will re-scan the file. -/
def exDb2 : DatabaseData :=
  { endpoints := [mkRec "get" "/old" "h" "f.py" 1 (some "w")],
    files := [], nextId := 2 }

/-- A file system in which the new content of `f.py` has no endpoints. -/
def exFs2 : FileSys :=
  fun s =>
    if s = "f.py" then some { lines := ["x = 1"], hash := "h2", mtimeMs := 7 }
    else none

/-- C2 counterexample: in the per-file step of a full `indexWorkspace` pass,
a changed file whose new content yields zero endpoints does NOT have its
prior records removed — the stale `/old` record is still returned by
`listForFile` although the new content was scanned (the file was not
skipped) and contains no endpoints, because the pass only clears when the
new scan found at least one endpoint. -/
theorem indexWorkspaceStep_stale_on_empty :
    indexFileLines ["x = 1"] = []
    ∧ isFileIndexed "w" exFs2 exDb2 "f.py" = false
    ∧ (getEndpointsByFile "f.py" "w"
        (indexWorkspaceStep "w" 9 exFs2 "f.py" exDb2)).map projE
      = [("get", "/old", "h", "f.py", 1)] := by decide

/-- C2 (amended): `reindexFile` always removes all prior EndpointRecords for
the filePath in the active scope before adding the newly extracted ones —
afterwards the store's records for that path and scope are, id aside,
exactly the freshly stamped records extracted from the new content (same
method, path, handler, file, line, router, hash, creation time `now` and
scope stamp, in order: so no record of the prior version remains), and
`listForFile p` is a permutation of them; this includes a new content with
zero endpoints, for which both sides are empty (first conjunct). The
per-file step of a full `indexWorkspace` pass gives the same guarantee only
when it re-scans the file and the new content yields at least one endpoint
(second conjunct); when a re-scanned, readable file yields zero endpoints
the step leaves the endpoint collection entirely unchanged — only the file
record is updated — so the prior records survive, as the counterexample
shows (third conjunct). -/
theorem reindex_replaces_endpoints :
    (∀ (ws : String) (now : Nat) (fs : FileSys) (p : String)
      (d : DatabaseData) (live : LiveFile), fs p = some live →
      (((reindexFile ws now fs p d).endpoints.filter
          (fun e => e.filePath = p && inScope ws e.workspaceId)).map projFull
        = (indexFileLines live.lines).map
            (fun pe => projFull (restamp ws now (toEndpointRecord pe p live.hash now))))
      ∧ ((getEndpointsByFile p ws (reindexFile ws now fs p d)).map projFull).Perm
          ((indexFileLines live.lines).map
            (fun pe => projFull (restamp ws now (toEndpointRecord pe p live.hash now)))))
    ∧ (∀ (ws : String) (now : Nat) (fs : FileSys) (p : String)
        (d : DatabaseData) (live : LiveFile), fs p = some live →
        isFileIndexed ws fs d p = false →
        indexFileLines live.lines ≠ [] →
        (((indexWorkspaceStep ws now fs p d).endpoints.filter
            (fun e => e.filePath = p && inScope ws e.workspaceId)).map projFull
          = (indexFileLines live.lines).map
              (fun pe => projFull (restamp ws now (toEndpointRecord pe p live.hash now))))
        ∧ ((getEndpointsByFile p ws (indexWorkspaceStep ws now fs p d)).map projFull).Perm
            ((indexFileLines live.lines).map
              (fun pe => projFull (restamp ws now (toEndpointRecord pe p live.hash now)))))
    ∧ (∀ (ws : String) (now : Nat) (fs : FileSys) (p : String)
        (d : DatabaseData) (live : LiveFile), fs p = some live →
        isFileIndexed ws fs d p = false →
        indexFileLines live.lines = [] →
        (indexWorkspaceStep ws now fs p d).endpoints = d.endpoints) := by
  have hrecs : ∀ (fs : FileSys) (p : String) (now : Nat) (live : LiveFile),
      fs p = some live →
      indexFileRecords fs p now
        = (indexFileLines live.lines).map
            (fun pe => toEndpointRecord pe p live.hash now) := by
    intro fs p now live hfs
    unfold indexFileRecords
    rw [hfs]
  have hfiltRecs : ∀ (fs : FileSys) (p : String) (now : Nat),
      (indexFileRecords fs p now).filter (fun e => e.filePath = p)
        = indexFileRecords fs p now := by
    intro fs p now
    rw [List.filter_eq_self]
    intro a ha
    unfold indexFileRecords at ha
    cases hfs : fs p with
    | none => rw [hfs] at ha; exact absurd ha (List.not_mem_nil a)
    | some live =>
      rw [hfs] at ha
      rcases List.mem_map.mp ha with ⟨pe, _, hpe⟩
      rw [← hpe]
      simp [toEndpointRecord]
  refine ⟨?_, ?_, ?_⟩
  · intro ws now fs p d live hfs
    have hend : (reindexFile ws now fs p d).endpoints
        = ((indexFileRecords fs p now).foldl (addEndpoint ws now)
            (clearEndpointsForFile ws p d)).endpoints := by
      unfold reindexFile
      rw [hfs]
      exact addOrUpdateFile_endpoints ws now p live _
    have hmain : ((reindexFile ws now fs p d).endpoints.filter
        (fun e => e.filePath = p && inScope ws e.workspaceId)).map projFull
        = (indexFileLines live.lines).map
            (fun pe => projFull (restamp ws now (toEndpointRecord pe p live.hash now))) := by
      rw [hend, foldl_addEndpoint_filter, filter_clearEndpointsForFile]
      rw [hfiltRecs, hrecs fs p now live hfs]
      simp [List.map_map, Function.comp]
    exact ⟨hmain, ((getEndpointsByFile_perm p ws _).map projFull).trans
      (hmain ▸ List.Perm.refl _)⟩
  · intro ws now fs p d live hfs hidx hne
    have hempty : (indexFileRecords fs p now).isEmpty = false := by
      rw [hrecs fs p now live hfs]
      cases hil : indexFileLines live.lines with
      | nil => exact absurd hil hne
      | cons a l => rfl
    have hend : (indexWorkspaceStep ws now fs p d).endpoints
        = ((indexFileRecords fs p now).foldl (addEndpoint ws now)
            (clearEndpointsForFile ws p d)).endpoints := by
      unfold indexWorkspaceStep
      rw [hidx, if_neg Bool.false_ne_true, hfs]
      rw [hempty, if_neg Bool.false_ne_true]
      exact addOrUpdateFile_endpoints ws now p live _
    have hmain : ((indexWorkspaceStep ws now fs p d).endpoints.filter
        (fun e => e.filePath = p && inScope ws e.workspaceId)).map projFull
        = (indexFileLines live.lines).map
            (fun pe => projFull (restamp ws now (toEndpointRecord pe p live.hash now))) := by
      rw [hend, foldl_addEndpoint_filter, filter_clearEndpointsForFile]
      rw [hfiltRecs, hrecs fs p now live hfs]
      simp [List.map_map, Function.comp]
    exact ⟨hmain, ((getEndpointsByFile_perm p ws _).map projFull).trans
      (hmain ▸ List.Perm.refl _)⟩
  · intro ws now fs p d live hfs hidx hzero
    have hempty : (indexFileRecords fs p now).isEmpty = true := by
      rw [hrecs fs p now live hfs, hzero]
      rfl
    unfold indexWorkspaceStep
    rw [hidx, if_neg Bool.false_ne_true, hfs]
    rw [hempty, if_pos rfl]
    exact addOrUpdateFile_endpoints ws now p live d

/-- A file system in which `f.py` now holds one recognizable endpoint. -/
def exFs2b : FileSys :=
  fun s =>
    if s = "f.py" then
      some { lines := ["@app.get(\"/new\")", "def h2():"], hash := "h3",
             mtimeMs := 8 }
    else none

/-- Witness for C2 (amended) at a concrete store: re-indexing `f.py`
replaces the stale `/old` record by exactly the freshly stamped `/new`
record parsed from the new content. -/
theorem reindex_replaces_endpoints_witness :
    ((reindexFile "w" 9 exFs2b "f.py" exDb2).endpoints.filter
        (fun e => e.filePath = "f.py" && inScope "w" e.workspaceId)).map projFull
      = (indexFileLines ["@app.get(\"/new\")", "def h2():"]).map
          (fun pe => projFull (restamp "w" 9 (toEndpointRecord pe "f.py" "h3" 9))) :=
  (reindex_replaces_endpoints.1 "w" 9 exFs2b "f.py" exDb2
    { lines := ["@app.get(\"/new\")", "def h2():"], hash := "h3", mtimeMs := 8 }
    (by decide)).1
